import Mathlib

/-!
Verification development for the `pgsm` repository (files
`pgsm/distributions/mvn.py` and `pgsm/mcmc/split_merge_setup.py`).

The embedding is exact-arithmetic: machine floats become rationals (for the
algebraic bookkeeping of `mvn.py` and the masking logic of the point-informed
kernel) or reals (for the log-domain scoring formulas).  `-inf` sentinel
values stored in numpy arrays are embedded as `Option` values with `none`
standing for `-inf`.  Randomness is embedded by passing each random draw in
as an explicit oracle argument; theorems constrain the oracles exactly where
numpy's samplers guarantee the corresponding property.

Helpers imported from `pgsm.math_utils` and `pgsm.utils` are not part of the
source tree; definitions for them are modelled from the spec and carry a
doc comment saying so.
-/

/- ----------------------------------------------------------------
   Linear algebra scaffolding: vectors and matrices over ℚ as plain
   functions out of `Fin d`.
   ---------------------------------------------------------------- -/

/-- Embedding of `pgsm.math_utils.outer_product x y` (the d×d matrix
`x·yᵀ`); `math_utils` is absent from `src`, but the call sites in
`mvn.py` fix its meaning as the outer product. -/
def outer_product {d : ℕ} (x y : Fin d → ℚ) : Fin d → Fin d → ℚ :=
  fun i j => x i * y j

/-- Modelled from the spec: `pgsm.math_utils.cholesky_update(L, v, sign)`
(absent from `src`).  Its contract (spec §4.1) is
`L'·L'ᵀ = L·Lᵀ + sign·v·vᵀ`.  The embedding tracks the factored product
`A = L·Lᵀ` instead of the triangular factor `L` itself, which is exactly
the "assuming the rank-1 cholesky_update primitive meets its contract"
reading of the claims: the `S_chol` field below holds `A`, and
`cholesky_update` maps `A` to `A + sign·v·vᵀ`. -/
def cholesky_update {d : ℕ} (A : Fin d → Fin d → ℚ) (v : Fin d → ℚ)
    (sign : ℤ) : Fin d → Fin d → ℚ :=
  fun i j => A i j + (sign : ℚ) * (v i * v j)

/-- Modelled from the spec: the call `cholesky_update(L, np.sqrt(r) * u, sign)`
of `mvn.py` (lines 77, 83, 86, 92).  Over ℚ the square root does not exist,
but only the rank-1 term `(√r·u)·(√r·u)ᵀ = r·u·uᵀ` ever enters the contract,
so the call is embedded at the product level as `A ↦ A + sign·r·u·uᵀ`. -/
def cholesky_update_sqrt_scaled {d : ℕ} (A : Fin d → Fin d → ℚ)
    (r : ℤ) (u : Fin d → ℚ) (sign : ℤ) : Fin d → Fin d → ℚ :=
  fun i j => A i j + (sign : ℚ) * (r : ℚ) * (u i * u j)

/- ----------------------------------------------------------------
   pgsm/distributions/mvn.py, exact-arithmetic embedding.
   ---------------------------------------------------------------- -/

/-- Embedding of `MultivariateNormalSufficientStatistics` (mvn.py lines
8-33): running count `N`, running sum `X`, running sum of outer products
`S`.  Python integers are unbounded, so `N : ℤ`. -/
@[ext]
structure MultivariateNormalSufficientStatistics (d : ℕ) where
  N : ℤ
  X : Fin d → ℚ
  S : Fin d → Fin d → ℚ

namespace MultivariateNormalSufficientStatistics

/-- Embedding of `MultivariateNormalSufficientStatistics.increment`
(mvn.py lines 30-33). -/
def increment {d : ℕ} (ss : MultivariateNormalSufficientStatistics d)
    (x : Fin d → ℚ) : MultivariateNormalSufficientStatistics d where
  N := ss.N + 1
  X := fun i => ss.X i + x i
  S := fun i j => ss.S i j + outer_product x x i j

/-- Embedding of `MultivariateNormalSufficientStatistics.decrement`
(mvn.py lines 25-28). -/
def decrement {d : ℕ} (ss : MultivariateNormalSufficientStatistics d)
    (x : Fin d → ℚ) : MultivariateNormalSufficientStatistics d where
  N := ss.N - 1
  X := fun i => ss.X i - x i
  S := fun i j => ss.S i j - outer_product x x i j

end MultivariateNormalSufficientStatistics

/-- Embedding of `MultivariateNormalPriors` (mvn.py lines 36-45), minus the
`log_det_S` field, which only feeds the real-valued marginal-likelihood
formula and is treated there.  The constructor fixes `nu = dim + 2`,
`r = 1`, `S = I`, `u = 0`; the fields are kept general so theorems
quantify over every prior. -/
structure MultivariateNormalPriors (d : ℕ) where
  nu : ℤ
  r : ℤ
  S : Fin d → Fin d → ℚ
  u : Fin d → ℚ

/-- Embedding of the `MultivariateNormalPriors.__init__` field values
(mvn.py lines 38-44). -/
def MultivariateNormalPriors.default (d : ℕ) : MultivariateNormalPriors d where
  nu := (d : ℤ) + 2
  r := 1
  S := fun i j => if i = j then 1 else 0
  u := fun _ => 0

/-- Embedding of `MultivariateNormalParameters` (mvn.py lines 48-107).
The `S_chol` field holds the product `L·Lᵀ` of the maintained Cholesky
factor (see `cholesky_update`). -/
@[ext]
structure MultivariateNormalParameters (d : ℕ) where
  priors : MultivariateNormalPriors d
  ss : MultivariateNormalSufficientStatistics d
  nu : ℤ
  r : ℤ
  u : Fin d → ℚ
  S_chol : Fin d → Fin d → ℚ

/-- The scale matrix recomputed directly from sufficient statistics:
the expression of `_update_S_chol` (mvn.py lines 103-107),
`S₀ + S + r₀·u₀·u₀ᵀ − r·u·uᵀ`. -/
def scale_matrix {d : ℕ} (priors : MultivariateNormalPriors d)
    (ss : MultivariateNormalSufficientStatistics d) (r : ℤ) (u : Fin d → ℚ) :
    Fin d → Fin d → ℚ :=
  fun i j =>
    priors.S i j + ss.S i j + (priors.r : ℚ) * outer_product priors.u priors.u i j
      - (r : ℚ) * outer_product u u i j

namespace MultivariateNormalParameters

/-- Embedding of the `MultivariateNormalParameters.__init__` constructor
(mvn.py lines 50-56): `nu, r, u` are derived from the statistics and
`S_chol` is a full direct factorization of the scale matrix, so at the
product level it equals `scale_matrix` exactly. -/
def create {d : ℕ} (priors : MultivariateNormalPriors d)
    (ss : MultivariateNormalSufficientStatistics d) :
    MultivariateNormalParameters d :=
  let nu := priors.nu + ss.N
  let r := priors.r + ss.N
  let u := fun i => ((priors.r : ℚ) * priors.u i + ss.X i) / (r : ℚ)
  { priors := priors, ss := ss, nu := nu, r := r, u := u
    S_chol := scale_matrix priors ss r u }

/-- Embedding of `MultivariateNormalParameters.increment` (mvn.py lines
85-92), preserving the exact order of operations: rank-1 update with
`√r_old·u_old`, mutation of the statistics, recomputation of `nu, r, u`,
rank-1 update with `x` (sign +1), rank-1 downdate with `√r_new·u_new`. -/
def increment {d : ℕ} (p : MultivariateNormalParameters d) (x : Fin d → ℚ) :
    MultivariateNormalParameters d :=
  let A1 := cholesky_update_sqrt_scaled p.S_chol p.r p.u 1
  let ss := p.ss.increment x
  let nu := p.priors.nu + ss.N
  let r := p.priors.r + ss.N
  let u := fun i => ((p.priors.r : ℚ) * p.priors.u i + ss.X i) / (r : ℚ)
  let A2 := cholesky_update A1 x 1
  let A3 := cholesky_update_sqrt_scaled A2 r u (-1)
  { priors := p.priors, ss := ss, nu := nu, r := r, u := u, S_chol := A3 }

/-- Embedding of `MultivariateNormalParameters.decrement` (mvn.py lines
76-83): same sequence with the point's own rank-1 operation applied with
sign −1. -/
def decrement {d : ℕ} (p : MultivariateNormalParameters d) (x : Fin d → ℚ) :
    MultivariateNormalParameters d :=
  let A1 := cholesky_update_sqrt_scaled p.S_chol p.r p.u 1
  let ss := p.ss.decrement x
  let nu := p.priors.nu + ss.N
  let r := p.priors.r + ss.N
  let u := fun i => ((p.priors.r : ℚ) * p.priors.u i + ss.X i) / (r : ℚ)
  let A2 := cholesky_update A1 x (-1)
  let A3 := cholesky_update_sqrt_scaled A2 r u (-1)
  { priors := p.priors, ss := ss, nu := nu, r := r, u := u, S_chol := A3 }

end MultivariateNormalParameters

/- ----------------------------------------------------------------
   pgsm/mcmc/split_merge_setup.py: error type and numpy sampling
   primitives (the latter modelled from the spec, since numpy and
   pgsm.math_utils are outside src).
   ---------------------------------------------------------------- -/

/-- Failure modes of the setup kernels: `badNumAnchors` is the explicit
`raise Exception(...)` guard each informed strategy starts with
(split_merge_setup.py lines 126-127, 223-224, 352-353, 392-393);
`numpyError` is any error raised inside a numpy sampling primitive
(for example `np.random.choice` applied to an empty list). -/
inductive KernelError where
  | badNumAnchors (strategy : String)
  | numpyError
deriving DecidableEq

/-- True exactly on the explicit `raise Exception` guard outcome. -/
def isBadNumAnchors {α : Type} : Except KernelError α → Bool
  | .error (.badNumAnchors _) => true
  | _ => false

/-- Modelled from the spec: `np.random.choice(l)` with uniform weights over
a list (pgsm uses it to draw a member of a candidate list).  The oracle
`o` chooses which element is returned; the primitive raises exactly when
the list is empty. -/
def np_choice_list {α : Type} (l : List α) (o : ℕ) : Except KernelError α :=
  match l with
  | [] => .error .numpyError
  | a :: _ => .ok (l.getD (o % l.length) a)

/-- Modelled from the spec:
`np.random.choice(np.arange(n), replace=False, size=2)`, the uniform
random distinct pair used as the degenerate-case fallback.  The two
oracle numbers are folded into a valid distinct pair below `n`; the
primitive raises exactly when `n < 2`. -/
def np_choice_pair_no_replace (n : ℕ) (o : ℕ × ℕ) :
    Except KernelError (ℕ × ℕ) :=
  if n < 2 then .error .numpyError
  else
    let a := o.1 % n
    let b' := o.2 % (n - 1)
    let b := if a ≤ b' then b' + 1 else b'
    .ok (a, b)

/-- Modelled from the spec:
`np.random.choice(np.arange(n), replace=False, size=k)` as used by the
uniform strategy (split_merge_setup.py line 81).  The drawn subset is an
oracle argument, constrained in theorems to be a valid draw (`k` distinct
indices below `n`, which is numpy's guarantee); the primitive raises
exactly when `k` exceeds `n`. -/
def np_choice_no_replace (n k : ℕ) (oracle : List ℕ) :
    Except KernelError (List ℕ) :=
  if n < k then .error .numpyError else .ok oracle

/-- Modelled from the spec: `np.random.choice(keys, p=values)` used by the
CRP-informed strategy (split_merge_setup.py line 231).  The oracle picks
the returned key; theorems about reachable behaviour constrain the oracle
to keys of positive probability, which is numpy's guarantee.  The
primitive raises exactly when the key list is empty. -/
def np_choice_weighted (l : List (ℕ × ℝ)) (o : ℕ) : Except KernelError ℕ :=
  match l with
  | [] => .error .numpyError
  | a :: _ => .ok (l.getD (o % l.length) a).1

/-- Modelled from the spec: `discrete_rvs(p)` from `pgsm.math_utils`
(absent from src) draws an index of the probability vector `p`
(split_merge_setup.py line 359); embedded as an oracle index reduced
below the vector's length `k`. -/
def discrete_rvs (k : ℕ) (o : ℕ) : ℕ := o % k

/- ----------------------------------------------------------------
   Base kernel: setup_split_merge assembly and the adaptive-rebuild
   control policy.
   ---------------------------------------------------------------- -/

/-- Embedding of the anchor→order assembly of
`SplitMergeSetupKernel.setup_split_merge` (split_merge_setup.py lines
40-60): clamp the anchor count to the data size, delegate to the
strategy's `_propose_anchors` (here the parameter `propose`, applied to
the clamped count), collect the members of every cluster containing an
anchor, remove the anchors, shuffle the remainder (the parameter
`shuffle`, constrained to a permutation in theorems), and return the
anchors followed by the shuffled remainder.  The iteration counting and
conditional `update` of lines 33-38 mutate only cached state and are
embedded separately (`setup_adapt_step` below). -/
def setup_split_merge (clustering : List ℤ) (propose : ℕ → List ℕ)
    (shuffle : List ℕ → List ℕ) (num_anchors : ℕ) : List ℕ × List ℕ :=
  let n := clustering.length
  let k := min num_anchors n
  let anchors := propose k
  let anchor_clusters := anchors.map fun a => clustering.getD a 0
  let sigma0 := (List.range n).filter fun i =>
    decide (clustering.getD i 0 ∈ anchor_clusters)
  let sigma := anchors.foldl (fun s x => s.erase x) sigma0
  (anchors, anchors ++ shuffle sigma)

/-- The adaptive state shared by the threshold-, CRP- and
cluster-informed kernels: the iteration counter of the base class
(split_merge_setup.py line 28) and `max_clusters_seen`
(lines 89, 188, 280). -/
structure AdaptState where
  iter : ℕ
  max_clusters_seen : ℕ
deriving DecidableEq

/-- Embedding of `_can_update` (split_merge_setup.py lines 112-123,
repeated verbatim at 209-220 and 338-349): the predicate holds when the
distinct cluster count strictly exceeds `max_clusters_seen` and the
iteration counter is within the adaptation budget; `max_clusters_seen`
is updated exactly when the predicate holds.  The budget is `ℕ∞` since
`num_adaptation_iters` defaults to `float('inf')`. -/
def can_update (budget : ℕ∞) (s : AdaptState) (num_clusters : ℕ) :
    Bool × AdaptState :=
  if s.max_clusters_seen < num_clusters ∧ (s.iter : ℕ∞) ≤ budget then
    (true, { s with max_clusters_seen := num_clusters })
  else
    (false, s)

/-- Embedding of the stateful prefix of `setup_split_merge`
(split_merge_setup.py lines 33-38): the iteration counter is incremented
first, then `_can_update` decides whether `update` is called.  The
returned Bool is `true` exactly when `update(clustering)` is called. -/
def setup_adapt_step (budget : ℕ∞) (s : AdaptState) (num_clusters : ℕ) :
    Bool × AdaptState :=
  can_update budget { s with iter := s.iter + 1 } num_clusters

/-- The adaptive state after `t` calls to `setup_split_merge`, where the
call with index `i` observes `counts i` distinct clusters. -/
def adapt_run (budget : ℕ∞) (counts : ℕ → ℕ) : ℕ → AdaptState
  | 0 => ⟨0, 0⟩
  | t + 1 => (setup_adapt_step budget (adapt_run budget counts t) (counts t)).2

/-- Whether the call with index `t` (the `t+1`-st call) rebuilds the
cluster parameter store, i.e. calls `update`. -/
def update_called (budget : ℕ∞) (counts : ℕ → ℕ) (t : ℕ) : Bool :=
  (setup_adapt_step budget (adapt_run budget counts t) (counts t)).1

/- ----------------------------------------------------------------
   Threshold-informed kernel: leave-one-out scoring and anchor
   proposal.
   ---------------------------------------------------------------- -/

/-- Embedding of one iteration of the scoring loop of
`ThresholdInformedSplitMergeSetupKernel._set_data_to_clusters`
(split_merge_setup.py lines 159-172): when the cluster is the scored
point's own cluster, its posterior is decremented before the likelihood
evaluation and re-incremented with the same point immediately after;
empty clusters score `-inf` (`none`), other clusters score
`log_tau_2(N') + log_predictive_likelihood(x, params')` on the
(possibly decremented) posterior.  The `N` attribute of the parameter
object is the count `ss.N` for the multivariate-normal model;
`log_predictive_likelihood` belongs to the observation-model interface
(spec §6) and is passed as an abstract function. -/
def threshold_score_cluster {d : ℕ} (own : Bool)
    (bp : MultivariateNormalParameters d) (x : Fin d → ℚ)
    (log_tau_2 : ℤ → ℝ)
    (log_predictive_likelihood :
      (Fin d → ℚ) → MultivariateNormalParameters d → ℝ) :
    Option ℝ × MultivariateNormalParameters d :=
  let bp1 := if own then bp.decrement x else bp
  let s := if bp1.ss.N = 0 then none
    else some (log_tau_2 bp1.ss.N + log_predictive_likelihood x bp1)
  let bp2 := if own then bp1.increment x else bp1
  (s, bp2)

/-- Embedding of the whole scoring loop of
`ThresholdInformedSplitMergeSetupKernel._set_data_to_clusters`
(split_merge_setup.py lines 150-172): cluster labels are contiguous and
0-based (spec §3), so the store is a map out of `Fin k`; `own` is
`self.clustering[data_idx]`.  The first component collects `log_p`, the
second the cluster posteriors after the loop.  The subsequent
log-normalisation and threshold filter (lines 174-180) only read
`log_p` and are not needed for the properties proved here. -/
def threshold_set_data_to_clusters {d k : ℕ}
    (params : Fin k → MultivariateNormalParameters d) (own : Fin k)
    (x : Fin d → ℚ) (log_tau_2 : ℤ → ℝ)
    (log_predictive_likelihood :
      (Fin d → ℚ) → MultivariateNormalParameters d → ℝ) :
    (Fin k → Option ℝ) × (Fin k → MultivariateNormalParameters d) :=
  (fun c => (threshold_score_cluster (decide (c = own)) (params c) x
      log_tau_2 log_predictive_likelihood).1,
   fun c => (threshold_score_cluster (decide (c = own)) (params c) x
      log_tau_2 log_predictive_likelihood).2)

/-- Embedding of `ThresholdInformedSplitMergeSetupKernel._propose_anchors`
(split_merge_setup.py lines 125-148).  `anchor1` is the uniform
`np.random.randint(0, n)` draw, passed as an oracle; `data_to_clusters`
is the retained-cluster cache (filled on a miss by
`_set_data_to_clusters`, so modelled as a total map);
`clusters_to_data` maps each cluster to its member indices. -/
def threshold_propose_anchors (num_anchors n : ℕ) (anchor1 : ℕ)
    (data_to_clusters : ℕ → List ℕ) (clusters_to_data : ℕ → List ℕ)
    (o_cluster o_member : ℕ) (o_pair : ℕ × ℕ) :
    Except KernelError (ℕ × ℕ) :=
  if num_anchors ≠ 2 then
    .error (.badNumAnchors
      "ThresholdInformedSplitMergeSetupKernel only works for 2 anchors")
  else
    let cs := data_to_clusters anchor1
    if cs.length = 0 then np_choice_pair_no_replace n o_pair
    else
      match np_choice_list cs o_cluster with
      | .error e => .error e
      | .ok cluster =>
        let members := ((clusters_to_data cluster).dedup).filter
          fun m => decide (m ≠ anchor1)
        if members.length = 0 then np_choice_pair_no_replace n o_pair
        else (np_choice_list members o_member).map fun a2 => (anchor1, a2)

/- ----------------------------------------------------------------
   CRP-informed kernel: scoring (real-valued) and anchor proposal.
   ---------------------------------------------------------------- -/

/-- Modelled from the spec: `log_sum_exp` from `pgsm.math_utils` (absent
from src), here on a vector of finite values. -/
noncomputable def log_sum_exp_vec {k : ℕ} (f : Fin k → ℝ) : ℝ :=
  Real.log (∑ c, Real.exp (f c))

/-- The exponential extended to the `-inf` sentinel: `exp(-inf) = 0`. -/
noncomputable def expO : Option ℝ → ℝ
  | none => 0
  | some a => Real.exp a

/-- The `log_p` array of
`CRPInformedSplitMergeSetupKernel._set_data_to_clusters` as it stands
after the loop of lines 250-257: initialised by `np.zeros`, the entry of
the scored point's own cluster is still the placeholder `0.0`, every
other cluster `c` holds
`log_tau_2(N_c) + log_predictive_likelihood(x, params_c)`. -/
noncomputable def crp_base {d k : ℕ}
    (params : Fin k → MultivariateNormalParameters d) (own : Fin k)
    (x : Fin d → ℚ) (log_tau_2 : ℤ → ℝ)
    (log_predictive_likelihood :
      (Fin d → ℚ) → MultivariateNormalParameters d → ℝ) : Fin k → ℝ :=
  fun c => if c = own then 0
    else log_tau_2 (params c).ss.N + log_predictive_likelihood x (params c)

/-- Embedding of the `log_p` array of
`CRPInformedSplitMergeSetupKernel._set_data_to_clusters`
(split_merge_setup.py lines 241-266) after the own-cluster entry is
written: `-inf` (`none`) when the own cluster is a singleton, otherwise
`log_sum_exp` of the current array — whose own entry is still the
`np.zeros` placeholder `0.0` — minus `log(num_clusters − 1)` when more
than one cluster exists. -/
noncomputable def crp_log_p {d k : ℕ}
    (params : Fin k → MultivariateNormalParameters d) (own : Fin k)
    (x : Fin d → ℚ) (log_tau_2 : ℤ → ℝ)
    (log_predictive_likelihood :
      (Fin d → ℚ) → MultivariateNormalParameters d → ℝ) :
    Fin k → Option ℝ :=
  fun c =>
    if c = own then
      if (params own).ss.N = 1 then none
      else some (log_sum_exp_vec
          (crp_base params own x log_tau_2 log_predictive_likelihood)
        - (if 1 < k then Real.log ((k : ℝ) - 1) else 0))
    else some (crp_base params own x log_tau_2 log_predictive_likelihood c)

/-- Embedding of the normalised probabilities `p` returned by
`exp_normalize(log_p)` (split_merge_setup.py line 268); `exp_normalize`
is from `pgsm.math_utils` (absent from src) and is modelled from the
spec as exponentiate-and-renormalise with `exp(-inf) = 0`. -/
noncomputable def crp_probs {d k : ℕ}
    (params : Fin k → MultivariateNormalParameters d) (own : Fin k)
    (x : Fin d → ℚ) (log_tau_2 : ℤ → ℝ)
    (log_predictive_likelihood :
      (Fin d → ℚ) → MultivariateNormalParameters d → ℝ) : Fin k → ℝ :=
  fun c =>
    expO (crp_log_p params own x log_tau_2 log_predictive_likelihood c) /
      ∑ c', expO (crp_log_p params own x log_tau_2 log_predictive_likelihood c')

/-- The own-cluster score exactly as claim C6 states it: `log_sum_exp`
of the OTHER clusters' scores, minus `log(numClusters − 1)`. -/
noncomputable def crp_claimed_own_score {d k : ℕ}
    (params : Fin k → MultivariateNormalParameters d) (own : Fin k)
    (x : Fin d → ℚ) (log_tau_2 : ℤ → ℝ)
    (log_predictive_likelihood :
      (Fin d → ℚ) → MultivariateNormalParameters d → ℝ) : ℝ :=
  Real.log (∑ c ∈ Finset.univ.erase own,
      Real.exp (log_tau_2 (params c).ss.N +
        log_predictive_likelihood x (params c)))
    - Real.log ((k : ℝ) - 1)

/-- Embedding of `CRPInformedSplitMergeSetupKernel._propose_anchors`
(split_merge_setup.py lines 222-239).  `data_to_clusters` is the cached
label→probability mapping built by `_set_data_to_clusters` (its `dict`
materialised as an association list in key order).  Note the absence of
any emptiness fallback: if the sampled cluster has no member other than
`anchor1`, the final `np.random.choice` is applied to an empty list and
raises.  The data-size argument `_n` is kept for signature symmetry with
the other strategies but — precisely because there is no uniform
fallback — is never consulted. -/
def crp_propose_anchors (num_anchors _n : ℕ) (anchor1 : ℕ)
    (data_to_clusters : ℕ → List (ℕ × ℝ)) (clusters_to_data : ℕ → List ℕ)
    (o_cluster o_member : ℕ) : Except KernelError (ℕ × ℕ) :=
  if num_anchors ≠ 2 then
    .error (.badNumAnchors
      "CRPInformedSplitMergeSetupKernel only works for 2 anchors")
  else
    match np_choice_weighted (data_to_clusters anchor1) o_cluster with
    | .error e => .error e
    | .ok cluster =>
      let members := ((clusters_to_data cluster).dedup).filter
        fun m => decide (m ≠ anchor1)
      (np_choice_list members o_member).map fun a2 => (anchor1, a2)

/- ----------------------------------------------------------------
   Cluster-informed kernel: anchor proposal.
   ---------------------------------------------------------------- -/

/-- Embedding of `ClusterInformedSplitMergeSetupKernel._propose_anchors`
(split_merge_setup.py lines 351-371).  The categorical row
`self.cluster_probs[cluster_1]` is consumed only through `discrete_rvs`,
so the draw is embedded as `discrete_rvs num_clusters o_cluster`; the
lookup `cluster_1 = self.data_to_clusters[anchor_1]` selects which row,
which the oracle already accounts for.  Note the fallback reassigns both
anchors to a uniform distinct pair. -/
def cluster_propose_anchors (num_anchors n num_clusters : ℕ)
    (anchor1 : ℕ) (clusters_to_data : ℕ → List ℕ)
    (o_cluster o_member : ℕ) (o_pair : ℕ × ℕ) :
    Except KernelError (ℕ × ℕ) :=
  if num_anchors ≠ 2 then
    .error (.badNumAnchors
      "ClusterInformedSplitMergeSetupKernel only works for 2 anchors")
  else
    let cluster_2 := discrete_rvs num_clusters o_cluster
    let members := ((clusters_to_data cluster_2).dedup).filter
      fun m => decide (m ≠ anchor1)
    if members.length = 0 then np_choice_pair_no_replace n o_pair
    else (np_choice_list members o_member).map fun a2 => (anchor1, a2)

/- ----------------------------------------------------------------
   Point-informed kernel: percentile masking and anchor proposal.
   ---------------------------------------------------------------- -/

/-- Modelled from the spec side of numpy: `np.percentile(a, q)` with the
default linear interpolation between the two nearest order statistics
(split_merge_setup.py lines 407, 414). -/
def np_percentile (l : List ℚ) (q : ℚ) : ℚ :=
  let s := List.insertionSort (· ≤ ·) l
  let h : ℚ := ((l.length : ℚ) - 1) * q / 100
  let i : ℕ := (Int.floor h).toNat
  let lo := s.getD i 0
  let hi := s.getD (i + 1) lo
  lo + (h - (i : ℚ)) * (hi - lo)

/-- Float comparison `v <= x` where `v` may be the `-inf` sentinel
(`-inf <= x` is true for every finite `x`). -/
def le_with_neg_inf (v : Option ℚ) (x : ℚ) : Bool :=
  match v with
  | none => true
  | some a => decide (a ≤ x)

/-- Embedding of the in-place masking of
`PointInformedSplitMergeSetupKernel._propose_anchors`
(split_merge_setup.py lines 400-420), applied to the copied
compatibility array `log_p_anchor`.  Each masked assignment reads the
array as mutated by the previous one, exactly as the numpy code does:
in the `u ≤ 0.5` branch the entries above the percentile are first set
to `-inf` and then the second mask `log_p_anchor <= x` — which is true
of `-inf` — overwrites them with `0`; finally the anchor's own entry is
set to `-inf`.  The resulting array value `none` means `-inf`
(excluded), `some _` means a candidate. -/
def point_propose_pool (n : ℕ) (scores : Fin n → ℚ) (anchor1 : Fin n)
    (u alpha : ℚ) : Fin n → Option ℚ :=
  if u ≤ 1/2 then
    let x := np_percentile (List.ofFn scores) alpha
    let a1 : Fin n → Option ℚ := fun j =>
      if x < scores j then none else some (scores j)
    let a2 : Fin n → Option ℚ := fun j =>
      if le_with_neg_inf (a1 j) x then some 0 else a1 j
    fun j => if j = anchor1 then none else a2 j
  else
    let x := np_percentile (List.ofFn scores) (100 - alpha)
    let b1 : Fin n → Option ℚ := fun j =>
      if x < scores j then some 0 else some (scores j)
    let b2 : Fin n → Option ℚ := fun j =>
      if le_with_neg_inf (b1 j) x then none else b1 j
    fun j => if j = anchor1 then none else b2 j

/-- The surviving candidate indices of the masked array: the entries that
are not `-inf` (split_merge_setup.py line 432). -/
def point_pool_indices (n : ℕ) (pool : Fin n → Option ℚ) : List (Fin n) :=
  (List.finRange n).filter fun j => (pool j).isSome

/-- The candidate pool exactly as claim C8 states it for the `u ≤ 0.5`
branch: the points other than `anchor1` whose compatibility is at most
the `alpha`-th percentile of the compatibility array. -/
def point_claimed_pool_low (n : ℕ) (scores : Fin n → ℚ) (anchor1 : Fin n)
    (alpha : ℚ) : List (Fin n) :=
  (List.finRange n).filter fun j =>
    decide (j ≠ anchor1 ∧ scores j ≤ np_percentile (List.ofFn scores) alpha)

/-- Embedding of `PointInformedSplitMergeSetupKernel._propose_anchors`
(split_merge_setup.py lines 391-436): the explicit guard, the masking of
the cached compatibility array, then `anchor2` drawn uniformly from the
surviving pool, or — when every entry is `-inf` — uniformly from all
indices other than `anchor1`.  `u` and `alpha` are the
`np.random.random()` and `100 * np.random.beta(1, 9)` draws. -/
def point_propose_anchors (num_anchors n : ℕ) (scores : Fin n → ℚ)
    (anchor1 : Fin n) (u alpha : ℚ) (o_member : ℕ) :
    Except KernelError (Fin n × Fin n) :=
  if num_anchors ≠ 2 then
    .error (.badNumAnchors
      "PointInformedSplitMergeSetupKernel only works for 2 anchors")
  else
    let pool := point_propose_pool n scores anchor1 u alpha
    let idx := point_pool_indices n pool
    if idx.length = 0 then
      let idx2 := (List.finRange n).filter fun j => decide (j ≠ anchor1)
      (np_choice_list idx2 o_member).map fun a2 => (anchor1, a2)
    else
      (np_choice_list idx o_member).map fun a2 => (anchor1, a2)

/-- Embedding of `UniformSplitMergeSetupKernel._propose_anchors`
(split_merge_setup.py lines 80-81). -/
def uniform_propose_anchors (num_data_points num_anchors : ℕ)
    (oracle : List ℕ) : Except KernelError (List ℕ) :=
  np_choice_no_replace num_data_points num_anchors oracle

/- ----------------------------------------------------------------
   MultivariateNormal.log_marginal_likelihood (real-valued).
   ---------------------------------------------------------------- -/

/-- Embedding of `MultivariateNormal.log_marginal_likelihood`
(mvn.py lines 119-126) over ℝ.  The arguments are the fields the method
reads: the prior's dimension `D`, degrees of freedom, precision scale and
log-determinant, and the posterior's count `N = params.ss.N`, degrees of
freedom `nu`, precision scale `r` and log-determinant (derived from the
Cholesky factor by the `log_det_S` property).  `log_gamma` from
`pgsm.math_utils` is absent from src and passed as an abstract
function. -/
noncomputable def log_marginal_likelihood (D : ℕ) (prior_nu prior_r : ℤ)
    (prior_log_det_S : ℝ) (N nu r : ℤ) (log_det_S : ℝ)
    (lgamma : ℝ → ℝ) : ℝ :=
  -0.5 * (N : ℝ) * (D : ℝ) * Real.log Real.pi
    + 0.5 * (D : ℝ) * (Real.log (prior_r : ℝ) - Real.log (r : ℝ))
    + 0.5 * ((prior_nu : ℝ) * prior_log_det_S - (nu : ℝ) * log_det_S)
    + ∑ i ∈ Finset.range D,
        (lgamma (0.5 * ((nu : ℝ) + 1 - ((i : ℝ) + 1)))
          - lgamma (0.5 * ((prior_nu : ℝ) + 1 - ((i : ℝ) + 1))))

/-- The closed-form marginal likelihood exactly as the spec states it:
`−½ N d log π + ½ d (log r₀ − log r) + ½(ν₀ log|S₀| − ν log|S|)
+ Σ_{k=1}^{d} [lgamma(½(ν+1−k)) − lgamma(½(ν₀+1−k))]`. -/
noncomputable def log_marginal_likelihood_spec_formula (D : ℕ)
    (prior_nu prior_r : ℤ) (prior_log_det_S : ℝ) (N nu r : ℤ)
    (log_det_S : ℝ) (lgamma : ℝ → ℝ) : ℝ :=
  -(1/2) * (N : ℝ) * (D : ℝ) * Real.log Real.pi
    + (1/2) * (D : ℝ) * (Real.log (prior_r : ℝ) - Real.log (r : ℝ))
    + (1/2) * ((prior_nu : ℝ) * prior_log_det_S - (nu : ℝ) * log_det_S)
    + ∑ k ∈ Finset.Icc 1 D,
        (lgamma (((nu : ℝ) + 1 - (k : ℝ)) / 2)
          - lgamma (((prior_nu : ℝ) + 1 - (k : ℝ)) / 2))

/- ----------------------------------------------------------------
   Concrete instances used by witnesses and counterexamples.
   ---------------------------------------------------------------- -/

/-- A concrete 1-dimensional posterior whose derived fields satisfy the
constructor invariants: one observed point with value 2, so `N = 1`,
`X = 2`, `S = 4`, and (with the default prior) `nu = 4`, `r = 2`,
`u = 1`, scale matrix `1 + 4 + 0 − 2·1 = 3`. -/
def testParams : MultivariateNormalParameters 1 where
  priors := MultivariateNormalPriors.default 1
  ss := ⟨1, fun _ => 2, fun _ _ => 4⟩
  nu := 4
  r := 2
  u := fun _ => 1
  S_chol := fun _ _ => 3

/-- A concrete pair of 1-dimensional cluster posteriors for the
CRP-informed scoring: cluster 0 (the scored point's own cluster) has two
members, cluster 1 has one.  Only the counts feed the scores. -/
def c6Params : Fin 2 → MultivariateNormalParameters 1 := fun c =>
  { priors := MultivariateNormalPriors.default 1
    ss := ⟨if c = 0 then 2 else 1, fun _ => 0, fun _ _ => 0⟩
    nu := 0
    r := 1
    u := fun _ => 0
    S_chol := fun _ _ => 0 }

/- ----------------------------------------------------------------
   Theorems.  Shared helper lemmas come first, then one theorem per
   claim (plus its witness or counterexample).
   ---------------------------------------------------------------- -/

/-- Helper: decrementing a point and re-incrementing it restores the
sufficient statistics and the maintained scale-matrix product exactly,
provided the stored `r` and `u` satisfy the constructor invariants. -/
theorem decrement_increment_restores {d : ℕ}
    (p : MultivariateNormalParameters d) (x : Fin d → ℚ)
    (hr : p.r = p.priors.r + p.ss.N)
    (hu : ∀ i, p.u i =
      ((p.priors.r : ℚ) * p.priors.u i + p.ss.X i) / (p.r : ℚ)) :
    ((p.decrement x).increment x).ss = p.ss ∧
    ((p.decrement x).increment x).S_chol = p.S_chol := by
  constructor
  · ext i j
    · simp [MultivariateNormalParameters.increment,
        MultivariateNormalParameters.decrement,
        MultivariateNormalSufficientStatistics.increment,
        MultivariateNormalSufficientStatistics.decrement]
    · simp [MultivariateNormalParameters.increment,
        MultivariateNormalParameters.decrement,
        MultivariateNormalSufficientStatistics.increment,
        MultivariateNormalSufficientStatistics.decrement]
    · simp [MultivariateNormalParameters.increment,
        MultivariateNormalParameters.decrement,
        MultivariateNormalSufficientStatistics.increment,
        MultivariateNormalSufficientStatistics.decrement, outer_product]
  · funext i j
    simp only [MultivariateNormalParameters.increment,
      MultivariateNormalParameters.decrement,
      MultivariateNormalSufficientStatistics.increment,
      MultivariateNormalSufficientStatistics.decrement,
      cholesky_update, cholesky_update_sqrt_scaled, outer_product]
    rw [show p.priors.r + (p.ss.N - 1 + 1) = p.r by omega]
    rw [show p.ss.X i - x i + x i = p.ss.X i by ring,
        show p.ss.X j - x j + x j = p.ss.X j by ring, ← hu i, ← hu j]
    push_cast
    ring

/-- C1: `increment(x)` and `decrement(x)` maintain the Cholesky factor by
exactly the four-step sequence embedded in
`MultivariateNormalParameters.increment`/`.decrement` (rank-1 update with
`√r_old·u_old`, statistics mutation and recomputation of `ν, r, u`,
rank-1 operation with `x` of the appropriate sign, rank-1 downdate with
`√r_new·u_new`); if the factored product equalled
`S₀ + S + r₀·u₀·u₀ᵀ − r·u·uᵀ` before the call, then afterwards it equals
the same expression computed directly from the new sufficient statistics
and the recomputed `r, u` — the rank-1 primitive being modelled by its
contract. -/
theorem C1_increment_decrement_maintain_scale {d : ℕ}
    (p : MultivariateNormalParameters d) (x : Fin d → ℚ)
    (h : p.S_chol = scale_matrix p.priors p.ss p.r p.u) :
    (p.increment x).S_chol =
      scale_matrix p.priors (p.increment x).ss (p.increment x).r
        (p.increment x).u ∧
    (p.decrement x).S_chol =
      scale_matrix p.priors (p.decrement x).ss (p.decrement x).r
        (p.decrement x).u := by
  constructor
  · funext i j
    have h' := congrFun (congrFun h i) j
    simp only [scale_matrix, outer_product] at h'
    simp only [MultivariateNormalParameters.increment,
      MultivariateNormalSufficientStatistics.increment,
      cholesky_update, cholesky_update_sqrt_scaled, scale_matrix,
      outer_product]
    push_cast
    linear_combination h'
  · funext i j
    have h' := congrFun (congrFun h i) j
    simp only [scale_matrix, outer_product] at h'
    simp only [MultivariateNormalParameters.decrement,
      MultivariateNormalSufficientStatistics.decrement,
      cholesky_update, cholesky_update_sqrt_scaled, scale_matrix,
      outer_product]
    push_cast
    linear_combination h'

/-- The concrete posterior `testParams` satisfies the maintained-scale
invariant. -/
theorem testParams_scale_invariant :
    testParams.S_chol
      = scale_matrix testParams.priors testParams.ss testParams.r
          testParams.u := by
  funext i j
  have hi := Fin.eq_zero i
  have hj := Fin.eq_zero j
  subst hi hj
  simp [testParams, scale_matrix, outer_product,
    MultivariateNormalPriors.default]
  norm_num

/-- Witness for C1 at a concrete posterior and point. -/
theorem C1_witness :
    (testParams.S_chol
        = scale_matrix testParams.priors testParams.ss testParams.r
            testParams.u) ∧
    ((testParams.increment (fun _ => 5)).S_chol =
      scale_matrix testParams.priors (testParams.increment (fun _ => 5)).ss
        (testParams.increment (fun _ => 5)).r
        (testParams.increment (fun _ => 5)).u ∧
    (testParams.decrement (fun _ => 5)).S_chol =
      scale_matrix testParams.priors (testParams.decrement (fun _ => 5)).ss
        (testParams.decrement (fun _ => 5)).r
        (testParams.decrement (fun _ => 5)).u) :=
  ⟨testParams_scale_invariant,
   C1_increment_decrement_maintain_scale testParams (fun _ => 5)
     testParams_scale_invariant⟩

/-- The concrete posterior `testParams` satisfies the derived-field
invariant for `r`. -/
theorem testParams_r_invariant :
    testParams.r = testParams.priors.r + testParams.ss.N := by
  norm_num [testParams, MultivariateNormalPriors.default]

/-- The concrete posterior `testParams` satisfies the derived-field
invariant for `u`. -/
theorem testParams_u_invariant :
    ∀ i, testParams.u i =
      ((testParams.priors.r : ℚ) * testParams.priors.u i
          + testParams.ss.X i) / (testParams.r : ℚ) := by
  intro i
  simp [testParams, MultivariateNormalPriors.default]

/-- C3: incrementing a point and then decrementing the same point
restores the sufficient statistics `(N, X, S)` and the maintained
scale-matrix product `L·Lᵀ` exactly, provided the stored `r` and `u`
satisfy the constructor invariants (which `create`, `increment` and
`decrement` all establish). -/
theorem C3_increment_decrement_roundtrip {d : ℕ}
    (p : MultivariateNormalParameters d) (x : Fin d → ℚ)
    (hr : p.r = p.priors.r + p.ss.N)
    (hu : ∀ i, p.u i =
      ((p.priors.r : ℚ) * p.priors.u i + p.ss.X i) / (p.r : ℚ)) :
    ((p.increment x).decrement x).ss = p.ss ∧
    ((p.increment x).decrement x).S_chol = p.S_chol := by
  constructor
  · ext i j
    · simp [MultivariateNormalParameters.increment,
        MultivariateNormalParameters.decrement,
        MultivariateNormalSufficientStatistics.increment,
        MultivariateNormalSufficientStatistics.decrement]
    · simp [MultivariateNormalParameters.increment,
        MultivariateNormalParameters.decrement,
        MultivariateNormalSufficientStatistics.increment,
        MultivariateNormalSufficientStatistics.decrement]
    · simp [MultivariateNormalParameters.increment,
        MultivariateNormalParameters.decrement,
        MultivariateNormalSufficientStatistics.increment,
        MultivariateNormalSufficientStatistics.decrement, outer_product]
  · funext i j
    simp only [MultivariateNormalParameters.increment,
      MultivariateNormalParameters.decrement,
      MultivariateNormalSufficientStatistics.increment,
      MultivariateNormalSufficientStatistics.decrement,
      cholesky_update, cholesky_update_sqrt_scaled, outer_product]
    rw [show p.priors.r + (p.ss.N + 1 - 1) = p.r by omega]
    rw [show p.ss.X i + x i - x i = p.ss.X i by ring,
        show p.ss.X j + x j - x j = p.ss.X j by ring, ← hu i, ← hu j]
    push_cast
    ring

/-- Witness for C3 at a concrete posterior and point. -/
theorem C3_witness :
    (testParams.r = testParams.priors.r + testParams.ss.N) ∧
    (((testParams.increment (fun _ => 7)).decrement (fun _ => 7)).ss
        = testParams.ss ∧
     ((testParams.increment (fun _ => 7)).decrement (fun _ => 7)).S_chol
        = testParams.S_chol) :=
  ⟨testParams_r_invariant,
   C3_increment_decrement_roundtrip testParams (fun _ => 7)
     testParams_r_invariant testParams_u_invariant⟩

/-- C10: the threshold-informed leave-one-out scoring leaves every cached
cluster posterior unchanged: the scored point's own cluster is
decremented before its likelihood evaluation and re-incremented with the
same point immediately after, every other cluster is only read, so each
cluster's sufficient statistics and maintained scale-matrix product are
restored exactly (given the constructor invariants on the own cluster's
stored `r` and `u`). -/
theorem C10_threshold_scoring_frame {d k : ℕ}
    (params : Fin k → MultivariateNormalParameters d) (own : Fin k)
    (x : Fin d → ℚ) (log_tau_2 : ℤ → ℝ)
    (log_predictive_likelihood :
      (Fin d → ℚ) → MultivariateNormalParameters d → ℝ)
    (hr : (params own).r = (params own).priors.r + (params own).ss.N)
    (hu : ∀ i, (params own).u i =
      (((params own).priors.r : ℚ) * (params own).priors.u i
          + (params own).ss.X i) / ((params own).r : ℚ)) :
    ∀ c,
      ((threshold_set_data_to_clusters params own x log_tau_2
          log_predictive_likelihood).2 c).ss = (params c).ss ∧
      ((threshold_set_data_to_clusters params own x log_tau_2
          log_predictive_likelihood).2 c).S_chol = (params c).S_chol := by
  intro c
  by_cases hc : c = own
  · subst hc
    have h := decrement_increment_restores (params c) x hr hu
    simpa [threshold_set_data_to_clusters, threshold_score_cluster]
      using h
  · simp [threshold_set_data_to_clusters, threshold_score_cluster, hc]

/-- Witness for C10 at a concrete one-cluster store. -/
theorem C10_witness :
    ((fun _ : Fin 1 => testParams) 0).r
        = ((fun _ : Fin 1 => testParams) 0).priors.r
            + ((fun _ : Fin 1 => testParams) 0).ss.N ∧
    ∀ c,
      ((threshold_set_data_to_clusters (fun _ : Fin 1 => testParams) 0
          (fun _ => 7) (fun _ => (0 : ℝ)) (fun _ _ => (0 : ℝ))).2 c).ss
        = ((fun _ : Fin 1 => testParams) c).ss ∧
      ((threshold_set_data_to_clusters (fun _ : Fin 1 => testParams) 0
          (fun _ => 7) (fun _ => (0 : ℝ)) (fun _ _ => (0 : ℝ))).2 c).S_chol
        = ((fun _ : Fin 1 => testParams) c).S_chol :=
  ⟨testParams_r_invariant,
   C10_threshold_scoring_frame (fun _ : Fin 1 => testParams) 0
     (fun _ => 7) (fun _ => (0 : ℝ)) (fun _ _ => (0 : ℝ))
     testParams_r_invariant testParams_u_invariant⟩

/-- C4: the value returned by `log_marginal_likelihood` equals the
closed-form expression of the spec,
`−½ N d log π + ½ d (log r₀ − log r) + ½(ν₀ log|S₀| − ν log|S|)
+ Σ_{k=1}^{d} [lgamma(½(ν+1−k)) − lgamma(½(ν₀+1−k))]`, for every
posterior summary (count, degrees of freedom, precision scale and
Cholesky-derived log-determinant) and every interpretation of
`log_gamma`. -/
theorem C4_log_marginal_likelihood_formula (D : ℕ) (prior_nu prior_r : ℤ)
    (prior_log_det_S : ℝ) (N nu r : ℤ) (log_det_S : ℝ) (lgamma : ℝ → ℝ) :
    log_marginal_likelihood D prior_nu prior_r prior_log_det_S N nu r
        log_det_S lgamma
      = log_marginal_likelihood_spec_formula D prior_nu prior_r
          prior_log_det_S N nu r log_det_S lgamma := by
  unfold log_marginal_likelihood log_marginal_likelihood_spec_formula
  have hsum :
      ∑ k ∈ Finset.Icc 1 D,
          (lgamma (((nu : ℝ) + 1 - (k : ℝ)) / 2)
            - lgamma (((prior_nu : ℝ) + 1 - (k : ℝ)) / 2))
        = ∑ i ∈ Finset.range D,
            (lgamma (0.5 * ((nu : ℝ) + 1 - ((i : ℝ) + 1)))
              - lgamma (0.5 * ((prior_nu : ℝ) + 1 - ((i : ℝ) + 1)))) := by
    rw [← Nat.Ico_succ_right, Finset.sum_Ico_eq_sum_range]
    simp only [Nat.succ_sub_one]
    refine Finset.sum_congr rfl fun i _ => ?_
    have h1 : ((nu : ℝ) + 1 - ((1 + i : ℕ) : ℝ)) / 2
        = 0.5 * ((nu : ℝ) + 1 - ((i : ℝ) + 1)) := by push_cast; ring
    have h2 : ((prior_nu : ℝ) + 1 - ((1 + i : ℕ) : ℝ)) / 2
        = 0.5 * ((prior_nu : ℝ) + 1 - ((i : ℝ) + 1)) := by push_cast; ring
    rw [h1, h2]
  rw [hsum]
  ring

/-- Helper: the iteration counter after `t` calls is `t`. -/
theorem adapt_run_iter (budget : ℕ∞) (counts : ℕ → ℕ) :
    ∀ t, (adapt_run budget counts t).iter = t := by
  intro t
  induction t with
  | zero => rfl
  | succ t ih =>
    simp only [adapt_run, setup_adapt_step, can_update]
    split
    · simpa using ih
    · simpa using ih

/-- Helper: while the iteration counter is within the adaptation budget,
`max_clusters_seen` is the running maximum of the observed distinct
cluster counts. -/
theorem adapt_run_max (budget : ℕ∞) (counts : ℕ → ℕ) :
    ∀ t, ((t : ℕ) : ℕ∞) ≤ budget →
      (adapt_run budget counts t).max_clusters_seen
        = (Finset.range t).sup counts := by
  intro t
  induction t with
  | zero => intro _; simp [adapt_run]
  | succ t ih =>
    intro ht
    have ht' : ((t : ℕ) : ℕ∞) ≤ budget :=
      le_trans (by exact_mod_cast Nat.cast_le.mpr (Nat.le_succ t)) ht
    have hmax := ih ht'
    have hiter := adapt_run_iter budget counts t
    simp only [adapt_run, setup_adapt_step, can_update]
    rw [Finset.range_succ, Finset.sup_insert]
    split
    · next hcond =>
      simp only
      rw [hmax] at hcond
      exact (sup_eq_left.mpr (le_of_lt hcond.1)).symm
    · next hcond =>
      push_neg at hcond
      rw [hiter] at hcond
      have hcnt : counts t ≤ (Finset.range t).sup counts := by
        by_contra hlt
        push_neg at hlt
        exact absurd ht (not_le_of_lt (hcond (by rw [hmax]; exact hlt)))
      simp only
      rw [hmax]
      exact (sup_eq_right.mpr hcnt).symm

/-- C7: for the adaptive strategies (threshold-, CRP- and
cluster-informed, which share `_can_update` verbatim), a call of
`setup_split_merge` rebuilds the cluster parameter store if and only if
the observed distinct cluster count strictly exceeds the maximum
observed in all earlier calls and the already-incremented iteration
counter is within the adaptation budget; and the recorded maximum is
updated to the new count exactly when a rebuild occurs. -/
theorem C7_adaptive_rebuild_policy (budget : ℕ∞) (counts : ℕ → ℕ) (t : ℕ) :
    (update_called budget counts t = true ↔
      ((Finset.range t).sup counts < counts t ∧
        ((t + 1 : ℕ) : ℕ∞) ≤ budget)) ∧
    ((adapt_run budget counts (t + 1)).max_clusters_seen
      = if update_called budget counts t then counts t
        else (adapt_run budget counts t).max_clusters_seen) := by
  have hiter := adapt_run_iter budget counts t
  have h2 : adapt_run budget counts (t + 1)
      = (setup_adapt_step budget (adapt_run budget counts t) (counts t)).2 :=
    rfl
  by_cases hcond : ((adapt_run budget counts t).max_clusters_seen < counts t ∧
      ((((adapt_run budget counts t).iter + 1 : ℕ)) : ℕ∞) ≤ budget)
  · have e1 : update_called budget counts t = true := by
      unfold update_called setup_adapt_step can_update
      dsimp only
      rw [if_pos hcond]
    have hb : ((t + 1 : ℕ) : ℕ∞) ≤ budget := by
      rw [hiter] at hcond; exact hcond.2
    have hmax := adapt_run_max budget counts t
      (le_trans (by exact_mod_cast Nat.le_succ t) hb)
    refine ⟨?_, ?_⟩
    · rw [e1]
      constructor
      · intro _
        refine ⟨?_, hb⟩
        rw [← hmax]
        exact hcond.1
      · intro _
        rfl
    · rw [h2, e1, if_pos rfl]
      unfold setup_adapt_step can_update
      dsimp only
      rw [if_pos hcond]
  · have e1 : update_called budget counts t = false := by
      unfold update_called setup_adapt_step can_update
      dsimp only
      rw [if_neg hcond]
    refine ⟨?_, ?_⟩
    · rw [e1]
      simp only [Bool.false_eq_true, false_iff]
      intro hcontra
      apply hcond
      rw [hiter]
      refine ⟨?_, hcontra.2⟩
      by_cases hbt : ((t : ℕ) : ℕ∞) ≤ budget
      · rw [adapt_run_max budget counts t hbt]
        exact hcontra.1
      · exact absurd
          (le_trans (by exact_mod_cast Nat.le_succ t) hcontra.2) hbt
    · rw [h2, e1]
      simp only [Bool.false_eq_true, if_false]
      unfold setup_adapt_step can_update
      dsimp only
      rw [if_neg hcond]

/-- C6 (amended): in the CRP-informed scoring of the scored point's own
cluster, a singleton own cluster gets normalised probability exactly 0;
a non-singleton own cluster's log-score is `log_sum_exp` of the full
score vector — whose own entry is still the `np.zeros` placeholder `0.0`
when the sum is taken — minus `log(numClusters − 1)` when more than one
cluster exists; and every other cluster's score is `log_tau_2` of its
size plus the predictive log-likelihood of the scored point. -/
theorem C6_crp_own_cluster_scoring {d k : ℕ}
    (params : Fin k → MultivariateNormalParameters d) (own : Fin k)
    (x : Fin d → ℚ) (log_tau_2 : ℤ → ℝ)
    (log_predictive_likelihood :
      (Fin d → ℚ) → MultivariateNormalParameters d → ℝ) :
    ((params own).ss.N = 1 →
      crp_probs params own x log_tau_2 log_predictive_likelihood own = 0) ∧
    ((params own).ss.N ≠ 1 →
      crp_log_p params own x log_tau_2 log_predictive_likelihood own
        = some (log_sum_exp_vec
            (crp_base params own x log_tau_2 log_predictive_likelihood)
          - (if 1 < k then Real.log ((k : ℝ) - 1) else 0))) ∧
    (∀ c, c ≠ own →
      crp_log_p params own x log_tau_2 log_predictive_likelihood c
        = some (log_tau_2 (params c).ss.N
            + log_predictive_likelihood x (params c))) := by
  refine ⟨?_, ?_, ?_⟩
  · intro h1
    simp [crp_probs, crp_log_p, h1, expO]
  · intro h1
    simp [crp_log_p, h1]
  · intro c hc
    simp [crp_log_p, crp_base, hc]

/-- Witness for C6 (amended) at the concrete two-cluster store. -/
theorem C6_witness :
    (c6Params 0).ss.N ≠ 1 ∧
    crp_log_p c6Params 0 (fun _ => 0) (fun _ => 0) (fun _ _ => 0) 0
      = some (log_sum_exp_vec
          (crp_base c6Params 0 (fun _ => 0) (fun _ => 0) (fun _ _ => 0))
        - (if 1 < 2 then Real.log ((2 : ℝ) - 1) else 0)) :=
  ⟨by norm_num [c6Params],
   (C6_crp_own_cluster_scoring c6Params 0 (fun _ => 0) (fun _ => 0)
       (fun _ _ => 0)).2.1 (by norm_num [c6Params])⟩

/-- C6 (counterexample): at the concrete two-cluster store — with
`log_tau_2` and the predictive likelihood both constantly 0 — the code's
own-cluster score is `log 2` (the placeholder `0.0` contributes `e⁰ = 1`
to the `log_sum_exp`), while the claim's "logsumexp of the other
clusters' scores minus `log(numClusters − 1)`" is `0`; the claim as
stated is therefore false. -/
theorem C6_counterexample :
    crp_log_p c6Params 0 (fun _ => 0) (fun _ => 0) (fun _ _ => 0) 0
      ≠ some (crp_claimed_own_score c6Params 0 (fun _ => 0) (fun _ => 0)
          (fun _ _ => 0)) := by
  have hL : crp_log_p c6Params 0 (fun _ => 0) (fun _ => 0) (fun _ _ => 0) 0
      = some (Real.log 2) := by
    have hbase : crp_base c6Params 0 (fun _ => 0) (fun _ => 0)
        (fun _ _ => 0) = fun _ => 0 := by
      funext c
      by_cases hc : c = 0 <;> simp [crp_base, hc]
    simp [crp_log_p, c6Params, log_sum_exp_vec, hbase, Fin.sum_univ_two]
    norm_num
  have hR : crp_claimed_own_score c6Params 0 (fun _ => 0) (fun _ => 0)
      (fun _ _ => 0) = 0 := by
    have he : (Finset.univ.erase (0 : Fin 2)) = {1} := by decide
    simp [crp_claimed_own_score, he]
    norm_num
  rw [hL, hR]
  simp only [ne_eq, Option.some.injEq]
  exact ne_of_gt (Real.log_pos one_lt_two)

/-- Helper: in the `u ≤ 0.5` branch of the point-informed masking, the
sequential in-place masks leave every entry equal to `0` — the second
mask `log_p_anchor <= x` is true of the `-inf` entries the first mask
just wrote and overwrites them — so the final array is `0` everywhere
except the `-inf` at the anchor's own index, whatever the scores and
percentile. -/
theorem point_pool_low_eq (n : ℕ) (scores : Fin n → ℚ) (anchor1 : Fin n)
    (u alpha : ℚ) (hu : u ≤ 1/2) :
    ∀ j, point_propose_pool n scores anchor1 u alpha j
      = if j = anchor1 then none else some 0 := by
  intro j
  simp only [point_propose_pool, if_pos hu]
  by_cases hj : j = anchor1
  · simp [hj]
  · simp only [hj, if_neg, ite_false]
    by_cases hx : np_percentile (List.ofFn scores) alpha < scores j
    · simp [hx, le_with_neg_inf]
    · simp [hx, le_with_neg_inf, le_of_not_lt hx]

/-- C8: at the compatibility scores `[5, 0, −10, −20]` with `anchor₁ = 0`,
`u = 1/4 ≤ 0.5` and `α = 50` (so the 50th percentile is `−5`), the code's
candidate pool is all of `{1, 2, 3}` — the second in-place mask
`log_p_anchor[log_p_anchor <= x] = 0` overwrites the `-inf` entries the
first mask just wrote, so the percentile filter has no effect — whereas
the pool the claim describes is `{2, 3}` (the points other than the
anchor with compatibility at most the 50th percentile). -/
theorem C8_point_masking_code_bug :
    point_pool_indices 4
        (point_propose_pool 4 ![5, 0, -10, -20] 0 (1/4) 50)
      = [1, 2, 3] ∧
    point_claimed_pool_low 4 ![5, 0, -10, -20] 0 50 = [2, 3] ∧
    ([1, 2, 3] : List (Fin 4)) ≠ ([2, 3] : List (Fin 4)) := by
  refine ⟨?_, ?_, by decide⟩
  · have hpool := point_pool_low_eq 4 ![5, 0, -10, -20] 0 (1/4) 50
      (by norm_num)
    simp only [point_pool_indices, hpool]
    decide
  · have hofn : List.ofFn (![5, 0, -10, -20] : Fin 4 → ℚ)
        = [5, 0, -10, -20] := by decide
    have hsort : List.insertionSort (· ≤ ·) ([5, 0, -10, -20] : List ℚ)
        = [-20, -10, 0, 5] := by
      norm_num [List.insertionSort, List.orderedInsert]
    have hperc : np_percentile (List.ofFn (![5, 0, -10, -20] : Fin 4 → ℚ)) 50
        = -5 := by
      unfold np_percentile
      rw [hofn, hsort]
      norm_num [List.getD]
    simp only [point_claimed_pool_low, hperc]
    decide

/-- Helper: a uniform list draw on a nonempty list succeeds and returns a
member of the list. -/
theorem np_choice_list_ok_mem {α : Type} (l : List α) (o : ℕ)
    (hl : l ≠ []) : ∃ v, np_choice_list l o = .ok v ∧ v ∈ l := by
  cases l with
  | nil => exact absurd rfl hl
  | cons a t =>
    refine ⟨(a :: t).getD (o % (a :: t).length) a, rfl, ?_⟩
    have hlt : o % (a :: t).length < (a :: t).length :=
      Nat.mod_lt _ (by simp)
    rw [List.getD_eq_getElem _ _ hlt]
    exact List.getElem_mem _

/-- Helper: the uniform distinct-pair fallback succeeds on at least two
data points and returns a distinct in-range pair. -/
theorem np_choice_pair_ok (n : ℕ) (hn : 2 ≤ n) (o : ℕ × ℕ) :
    ∃ a b, np_choice_pair_no_replace n o = .ok (a, b) ∧ a ≠ b ∧
      a < n ∧ b < n := by
  have h1 : o.1 % n < n := Nat.mod_lt _ (by omega)
  have h2 : o.2 % (n - 1) < n - 1 := Nat.mod_lt _ (by omega)
  refine ⟨o.1 % n,
    if o.1 % n ≤ o.2 % (n - 1) then o.2 % (n - 1) + 1 else o.2 % (n - 1),
    ?_, ?_, h1, ?_⟩
  · unfold np_choice_pair_no_replace
    rw [if_neg (by omega)]
  · by_cases hab : o.1 % n ≤ o.2 % (n - 1) <;> simp [hab] <;> omega
  · by_cases hab : o.1 % n ≤ o.2 % (n - 1) <;> simp [hab] <;> omega

/-- Helper: the pair fallback never raises the explicit anchor-count
guard. -/
theorem isBadNumAnchors_pair (n : ℕ) (o : ℕ × ℕ) :
    isBadNumAnchors (np_choice_pair_no_replace n o) = false := by
  unfold np_choice_pair_no_replace
  split
  · rfl
  · rfl

/-- Helper: a uniform list draw never raises the explicit anchor-count
guard. -/
theorem isBadNumAnchors_list {α : Type} (l : List α) (o : ℕ) :
    isBadNumAnchors (np_choice_list l o) = false := by
  cases l <;> rfl

/-- Helper: `Except.map` preserves the guard classification. -/
theorem isBadNumAnchors_map {α β : Type} (e : Except KernelError α)
    (f : α → β) : isBadNumAnchors (e.map f) = isBadNumAnchors e := by
  cases e with
  | error err => cases err <;> rfl
  | ok v => rfl

/-- Helper: a failed uniform list draw is always the numpy error. -/
theorem np_choice_list_error {α : Type} {l : List α} {o : ℕ}
    {e : KernelError} (h : np_choice_list l o = .error e) :
    e = .numpyError := by
  cases l with
  | nil =>
    simp only [np_choice_list, Except.error.injEq] at h
    exact h.symm
  | cons a t => simp [np_choice_list] at h

/-- Helper: a failed weighted choice is always the numpy error. -/
theorem np_choice_weighted_error {l : List (ℕ × ℝ)} {o : ℕ}
    {e : KernelError} (h : np_choice_weighted l o = .error e) :
    e = .numpyError := by
  cases l with
  | nil =>
    simp only [np_choice_weighted, Except.error.injEq] at h
    exact h.symm
  | cons a t => simp [np_choice_weighted] at h

/-- Helper: the threshold-informed proposal raises the explicit guard
exactly when the anchor count differs from 2. -/
theorem threshold_guard_iff (nA n anchor1 : ℕ) (dtc ctd : ℕ → List ℕ)
    (o1 o2 : ℕ) (op : ℕ × ℕ) :
    isBadNumAnchors
        (threshold_propose_anchors nA n anchor1 dtc ctd o1 o2 op) = true
      ↔ nA ≠ 2 := by
  by_cases h : nA = 2
  · subst h
    simp only [threshold_propose_anchors, ne_eq, not_true_eq_false,
      if_false, not_false_eq_true, iff_false, Bool.not_eq_true]
    split
    · exact isBadNumAnchors_pair _ _
    · split
      · next e heq => rw [np_choice_list_error heq]; rfl
      · split
        · exact isBadNumAnchors_pair _ _
        · rw [isBadNumAnchors_map]
          exact isBadNumAnchors_list _ _
  · simp [threshold_propose_anchors, h, isBadNumAnchors]

/-- Helper: the CRP-informed proposal raises the explicit guard exactly
when the anchor count differs from 2. -/
theorem crp_guard_iff (nA n anchor1 : ℕ) (dtc : ℕ → List (ℕ × ℝ))
    (ctd : ℕ → List ℕ) (o1 o2 : ℕ) :
    isBadNumAnchors (crp_propose_anchors nA n anchor1 dtc ctd o1 o2) = true
      ↔ nA ≠ 2 := by
  by_cases h : nA = 2
  · subst h
    simp only [crp_propose_anchors, ne_eq, not_true_eq_false, if_false,
      not_false_eq_true, iff_false, Bool.not_eq_true]
    split
    · next e heq => rw [np_choice_weighted_error heq]; rfl
    · rw [isBadNumAnchors_map]
      exact isBadNumAnchors_list _ _
  · simp [crp_propose_anchors, h, isBadNumAnchors]

/-- Helper: the cluster-informed proposal raises the explicit guard
exactly when the anchor count differs from 2. -/
theorem cluster_guard_iff (nA n nc anchor1 : ℕ) (ctd : ℕ → List ℕ)
    (o1 o2 : ℕ) (op : ℕ × ℕ) :
    isBadNumAnchors
        (cluster_propose_anchors nA n nc anchor1 ctd o1 o2 op) = true
      ↔ nA ≠ 2 := by
  by_cases h : nA = 2
  · subst h
    simp only [cluster_propose_anchors, ne_eq, not_true_eq_false,
      if_false, not_false_eq_true, iff_false, Bool.not_eq_true]
    split
    · exact isBadNumAnchors_pair _ _
    · rw [isBadNumAnchors_map]
      exact isBadNumAnchors_list _ _
  · simp [cluster_propose_anchors, h, isBadNumAnchors]

/-- Helper: the point-informed proposal raises the explicit guard exactly
when the anchor count differs from 2. -/
theorem point_guard_iff (nA m : ℕ) (scores : Fin m → ℚ) (a1p : Fin m)
    (u alpha : ℚ) (o1 : ℕ) :
    isBadNumAnchors (point_propose_anchors nA m scores a1p u alpha o1)
        = true
      ↔ nA ≠ 2 := by
  by_cases h : nA = 2
  · subst h
    simp only [point_propose_anchors, ne_eq, not_true_eq_false, if_false,
      not_false_eq_true, iff_false, Bool.not_eq_true]
    split
    · rw [isBadNumAnchors_map]
      exact isBadNumAnchors_list _ _
    · rw [isBadNumAnchors_map]
      exact isBadNumAnchors_list _ _
  · simp [point_propose_anchors, h, isBadNumAnchors]

/-- C9: every informed (2-anchor) strategy's `_propose_anchors` raises
its explicit error exactly when the requested anchor count differs
from 2; the uniform strategy's draw succeeds for any anchor count up to
the dataset size; and `setup_split_merge` clamps the anchor count to the
data size before delegating to the strategy. -/
theorem C9_anchor_count_guards (nA n nc : ℕ) (anchor1 : ℕ)
    (dtcT : ℕ → List ℕ) (dtcC : ℕ → List (ℕ × ℝ)) (ctd : ℕ → List ℕ)
    (o1 o2 : ℕ) (op : ℕ × ℕ) (m : ℕ) (scores : Fin m → ℚ) (a1p : Fin m)
    (u alpha : ℚ) (k : ℕ) (oracle : List ℕ) (clustering : List ℤ)
    (propose : ℕ → List ℕ) (shuffle : List ℕ → List ℕ)
    (hk : k ≤ n) :
    (isBadNumAnchors
        (threshold_propose_anchors nA n anchor1 dtcT ctd o1 o2 op) = true
      ↔ nA ≠ 2) ∧
    (isBadNumAnchors (crp_propose_anchors nA n anchor1 dtcC ctd o1 o2)
        = true ↔ nA ≠ 2) ∧
    (isBadNumAnchors
        (cluster_propose_anchors nA n nc anchor1 ctd o1 o2 op) = true
      ↔ nA ≠ 2) ∧
    (isBadNumAnchors (point_propose_anchors nA m scores a1p u alpha o1)
        = true ↔ nA ≠ 2) ∧
    (uniform_propose_anchors n k oracle = .ok oracle) ∧
    ((setup_split_merge clustering propose shuffle nA).1
      = propose (min nA clustering.length)) :=
  ⟨threshold_guard_iff nA n anchor1 dtcT ctd o1 o2 op,
   crp_guard_iff nA n anchor1 dtcC ctd o1 o2,
   cluster_guard_iff nA n nc anchor1 ctd o1 o2 op,
   point_guard_iff nA m scores a1p u alpha o1,
   by unfold uniform_propose_anchors np_choice_no_replace
      rw [if_neg (by omega)],
   rfl⟩

/-- Witness for C9 at concrete arguments. -/
theorem C9_witness :
    ((2 : ℕ) ≤ 3) ∧
    ((isBadNumAnchors
        (threshold_propose_anchors 2 3 0 (fun _ => []) (fun _ => []) 0 0
          (0, 0)) = true ↔ (2 : ℕ) ≠ 2) ∧
    (isBadNumAnchors
        (crp_propose_anchors 2 3 0 (fun _ => []) (fun _ => []) 0 0)
          = true ↔ (2 : ℕ) ≠ 2) ∧
    (isBadNumAnchors
        (cluster_propose_anchors 2 3 1 0 (fun _ => []) 0 0 (0, 0)) = true
      ↔ (2 : ℕ) ≠ 2) ∧
    (isBadNumAnchors
        (point_propose_anchors 2 1 (fun _ => 0) 0 0 0 0) = true
      ↔ (2 : ℕ) ≠ 2) ∧
    (uniform_propose_anchors 3 2 [0, 1] = .ok [0, 1]) ∧
    ((setup_split_merge [0] (fun _ => []) id 2).1
      = (fun _ : ℕ => ([] : List ℕ)) (min 2 ([0] : List ℤ).length))) :=
  ⟨by omega,
   C9_anchor_count_guards 2 3 1 0 (fun _ => []) (fun _ => [])
     (fun _ => []) 0 0 (0, 0) 1 (fun _ => 0) 0 0 0 2 [0, 1] [0]
     (fun _ => []) id (by omega)⟩

/-- Helper: the point-informed masking always sets the anchor's own entry
to `-inf`. -/
theorem point_pool_anchor_none (n : ℕ) (scores : Fin n → ℚ) (a1 : Fin n)
    (u alpha : ℚ) :
    point_propose_pool n scores a1 u alpha a1 = none := by
  unfold point_propose_pool
  split <;> simp

/-- C5 (amended): the threshold-, cluster- and point-informed strategies
have explicit uniform fallbacks, so with the supported anchor count 2 and
at least two data points their proposals always return a distinct anchor
pair, whatever the cached state and random draws; the CRP-informed
strategy has no such fallback (see the counterexample: when the sampled
destination cluster contains no point other than `anchor₁`, its proposal
fails with a numpy error instead of falling back — the code avoids this
path only because such clusters receive probability exactly zero in
exact arithmetic). -/
theorem C5_degenerate_fallbacks (n nc : ℕ) (anchor1 : ℕ)
    (dtcT : ℕ → List ℕ) (ctd : ℕ → List ℕ) (o1 o2 : ℕ) (op : ℕ × ℕ)
    (m : ℕ) (scores : Fin m → ℚ) (a1p : Fin m) (u alpha : ℚ)
    (hn : 2 ≤ n) (hm : 2 ≤ m) :
    (∃ a b, threshold_propose_anchors 2 n anchor1 dtcT ctd o1 o2 op
        = .ok (a, b) ∧ a ≠ b) ∧
    (∃ a b, cluster_propose_anchors 2 n nc anchor1 ctd o1 o2 op
        = .ok (a, b) ∧ a ≠ b) ∧
    (∃ a b, point_propose_anchors 2 m scores a1p u alpha o1
        = .ok (a, b) ∧ a ≠ b) := by
  refine ⟨?_, ?_, ?_⟩
  · unfold threshold_propose_anchors
    rw [if_neg (show ¬((2 : ℕ) ≠ 2) by omega)]
    by_cases hcs : (dtcT anchor1).length = 0
    · rw [if_pos hcs]
      obtain ⟨a, b, heq, hne, _, _⟩ := np_choice_pair_ok n hn op
      exact ⟨a, b, heq, hne⟩
    · rw [if_neg hcs]
      have hcsne : dtcT anchor1 ≠ [] := by
        intro hnil; rw [hnil] at hcs; simp at hcs
      obtain ⟨c, hch, _⟩ := np_choice_list_ok_mem (dtcT anchor1) o1 hcsne
      rw [hch]
      dsimp only
      by_cases hm0 :
          (((ctd c).dedup).filter fun mm => decide (mm ≠ anchor1)).length
            = 0
      · rw [if_pos hm0]
        obtain ⟨a, b, heq, hne, _, _⟩ := np_choice_pair_ok n hn op
        exact ⟨a, b, heq, hne⟩
      · rw [if_neg hm0]
        have hmne :
            (((ctd c).dedup).filter fun mm => decide (mm ≠ anchor1))
              ≠ [] := by
          intro hnil; rw [hnil] at hm0; simp at hm0
        obtain ⟨w, hw, hwm⟩ := np_choice_list_ok_mem _ o2 hmne
        rw [hw]
        refine ⟨anchor1, w, rfl, ?_⟩
        have hwne := (List.mem_filter.mp hwm).2
        simp only [decide_eq_true_eq] at hwne
        exact hwne.symm
  · unfold cluster_propose_anchors
    rw [if_neg (show ¬((2 : ℕ) ≠ 2) by omega)]
    dsimp only
    by_cases hm0 :
        (((ctd (discrete_rvs nc o1)).dedup).filter
            fun mm => decide (mm ≠ anchor1)).length = 0
    · rw [if_pos hm0]
      obtain ⟨a, b, heq, hne, _, _⟩ := np_choice_pair_ok n hn op
      exact ⟨a, b, heq, hne⟩
    · rw [if_neg hm0]
      have hmne :
          (((ctd (discrete_rvs nc o1)).dedup).filter
              fun mm => decide (mm ≠ anchor1)) ≠ [] := by
        intro hnil; rw [hnil] at hm0; simp at hm0
      obtain ⟨w, hw, hwm⟩ := np_choice_list_ok_mem _ o2 hmne
      rw [hw]
      refine ⟨anchor1, w, rfl, ?_⟩
      have hwne := (List.mem_filter.mp hwm).2
      simp only [decide_eq_true_eq] at hwne
      exact hwne.symm
  · unfold point_propose_anchors
    rw [if_neg (show ¬((2 : ℕ) ≠ 2) by omega)]
    dsimp only
    by_cases hidx :
        (point_pool_indices m
            (point_propose_pool m scores a1p u alpha)).length = 0
    · rw [if_pos hidx]
      have hne2 :
          ((List.finRange m).filter fun j => decide (j ≠ a1p)) ≠ [] := by
        intro hnil
        rw [List.filter_eq_nil_iff] at hnil
        have e0 := hnil (⟨0, by omega⟩ : Fin m) (List.mem_finRange _)
        have e1 := hnil (⟨1, by omega⟩ : Fin m) (List.mem_finRange _)
        simp only [decide_eq_true_eq, not_not] at e0 e1
        have : (⟨0, by omega⟩ : Fin m) = ⟨1, by omega⟩ := by
          rw [e0, ← e1]
        exact absurd (congrArg Fin.val this) (by simp)
      obtain ⟨w, hw, hwm⟩ := np_choice_list_ok_mem _ o1 hne2
      rw [hw]
      refine ⟨a1p, w, rfl, ?_⟩
      have hwne := (List.mem_filter.mp hwm).2
      simp only [decide_eq_true_eq] at hwne
      exact hwne.symm
    · rw [if_neg hidx]
      have hine :
          point_pool_indices m (point_propose_pool m scores a1p u alpha)
            ≠ [] := by
        intro hnil; rw [hnil] at hidx; simp at hidx
      obtain ⟨w, hw, hwm⟩ := np_choice_list_ok_mem _ o1 hine
      rw [hw]
      refine ⟨a1p, w, rfl, ?_⟩
      intro hcontra
      have hsome := (List.mem_filter.mp hwm).2
      rw [← hcontra] at hsome
      rw [point_pool_anchor_none] at hsome
      simp at hsome

/-- Witness for C5 (amended) at concrete arguments. -/
theorem C5_witness :
    ((2 : ℕ) ≤ 2) ∧
    ((∃ a b, threshold_propose_anchors 2 2 0 (fun _ => []) (fun _ => [])
        0 0 (0, 0) = .ok (a, b) ∧ a ≠ b) ∧
    (∃ a b, cluster_propose_anchors 2 2 1 0 (fun _ => []) 0 0 (0, 0)
        = .ok (a, b) ∧ a ≠ b) ∧
    (∃ a b, point_propose_anchors 2 2 (fun _ => 0) 0 0 0 0
        = .ok (a, b) ∧ a ≠ b)) :=
  ⟨by omega,
   C5_degenerate_fallbacks 2 1 0 (fun _ => []) (fun _ => []) 0 0 (0, 0)
     2 (fun _ => 0) 0 0 0 (by omega) (by omega)⟩

/-- C5 (counterexample): a concrete CRP-informed state — two data points
in two singleton clusters, `anchor₁ = 0`, the cluster draw selecting
cluster `{0}` — on which `_propose_anchors` has no fallback and fails
with a numpy error (`np.random.choice` of an empty member list), so the
claim that every strategy has an explicit fallback making degenerate
outcomes non-fatal is false as stated. -/
theorem C5_counterexample :
    crp_propose_anchors 2 2 0 (fun _ => [(0, (0 : ℝ)), (1, 1)])
        (fun c => if c = 0 then [0] else [1]) 0 0
      = .error .numpyError := rfl

/-- Helper: folding `List.erase` over a duplicate-free accumulator removes
exactly the erased elements (this is the `for x in anchors:
sigma.remove(x)` loop of setup_split_merge). -/
theorem foldl_erase_nodup_mem (anchors : List ℕ) :
    ∀ s : List ℕ, s.Nodup →
      (anchors.foldl (fun t x => t.erase x) s).Nodup ∧
      ∀ i, i ∈ anchors.foldl (fun t x => t.erase x) s ↔
        (i ∈ s ∧ i ∉ anchors) := by
  induction anchors with
  | nil =>
    intro s hs
    exact ⟨hs, fun i => by simp⟩
  | cons a as ih =>
    intro s hs
    have h1 := ih (s.erase a) (hs.erase a)
    refine ⟨by simpa using h1.1, fun i => ?_⟩
    simp only [List.foldl_cons]
    rw [h1.2 i, hs.mem_erase_iff]
    simp only [List.mem_cons]
    tauto

/-- Helper: the anchor→order assembly of `setup_split_merge` (collect the
members of the anchors' clusters, remove the anchors, shuffle, prepend
the anchors) yields a duplicate-free order that starts with the anchors
and contains exactly the indices whose cluster contains an anchor. -/
theorem setup_order_assembly (clustering : List ℤ) (anchors : List ℕ)
    (shuffle : List ℕ → List ℕ) (hnd : anchors.Nodup)
    (hlt : ∀ a ∈ anchors, a < clustering.length)
    (hshuffle : ∀ l : List ℕ, (shuffle l).Perm l) :
    (anchors ++ shuffle (anchors.foldl (fun s x => s.erase x)
        ((List.range clustering.length).filter fun i =>
          decide (clustering.getD i 0 ∈
            anchors.map fun a => clustering.getD a 0)))).Nodup ∧
    ((anchors ++ shuffle (anchors.foldl (fun s x => s.erase x)
        ((List.range clustering.length).filter fun i =>
          decide (clustering.getD i 0 ∈
            anchors.map fun a => clustering.getD a 0)))).take
        anchors.length = anchors) ∧
    (∀ i, i ∈ anchors ++ shuffle (anchors.foldl (fun s x => s.erase x)
        ((List.range clustering.length).filter fun i =>
          decide (clustering.getD i 0 ∈
            anchors.map fun a => clustering.getD a 0))) ↔
      i < clustering.length ∧
        clustering.getD i 0 ∈ anchors.map fun a => clustering.getD a 0) := by
  classical
  set AC := anchors.map (fun a => clustering.getD a 0) with hAC
  set sigma0 := (List.range clustering.length).filter
      (fun i => decide (clustering.getD i 0 ∈ AC)) with hsigma0
  set sigma := anchors.foldl (fun s x => s.erase x) sigma0 with hsigma
  have hsigma0nd : sigma0.Nodup :=
    List.Nodup.filter _ (List.nodup_range clustering.length)
  obtain ⟨hsnd, hsmem⟩ := foldl_erase_nodup_mem anchors sigma0 hsigma0nd
  have hperm := hshuffle sigma
  have hshufnd : (shuffle sigma).Nodup := hperm.nodup_iff.mpr hsnd
  have hshufmem : ∀ i, i ∈ shuffle sigma ↔ i ∈ sigma :=
    fun i => hperm.mem_iff
  refine ⟨?_, ?_, ?_⟩
  · rw [List.nodup_append]
    refine ⟨hnd, hshufnd, ?_⟩
    intro a ha hb
    rw [hshufmem a, hsmem a] at hb
    exact hb.2 ha
  · exact List.take_left anchors (shuffle sigma)
  · intro i
    rw [List.mem_append, hshufmem i, hsmem i]
    constructor
    · rintro (hi | ⟨hi0, _⟩)
      · exact ⟨hlt i hi, List.mem_map_of_mem _ hi⟩
      · rw [hsigma0, List.mem_filter] at hi0
        exact ⟨List.mem_range.mp hi0.1, by simpa using hi0.2⟩
    · rintro ⟨hilt, hic⟩
      by_cases hia : i ∈ anchors
      · exact Or.inl hia
      · refine Or.inr ⟨?_, hia⟩
        rw [hsigma0, List.mem_filter]
        exact ⟨List.mem_range.mpr hilt, by simpa using hic⟩

/-- C2: `setup_split_merge` returns exactly `min(numAnchors, |data|)`
distinct anchors (given that the delegated strategy returns that many
distinct valid indices, which every strategy does on its supported
anchor counts), and the returned order is the anchors, in order, at the
front, followed by a permutation of every other index belonging to a
cluster of the pre-call clustering that contains an anchor — no
duplicates, no omissions. -/
theorem C2_setup_split_merge_validity (clustering : List ℤ)
    (propose : ℕ → List ℕ) (shuffle : List ℕ → List ℕ) (num_anchors : ℕ)
    (hlen : (propose (min num_anchors clustering.length)).length
      = min num_anchors clustering.length)
    (hnd : (propose (min num_anchors clustering.length)).Nodup)
    (hlt : ∀ a ∈ propose (min num_anchors clustering.length),
      a < clustering.length)
    (hshuffle : ∀ l : List ℕ, (shuffle l).Perm l) :
    (setup_split_merge clustering propose shuffle num_anchors).1.length
        = min num_anchors clustering.length ∧
    (setup_split_merge clustering propose shuffle num_anchors).1.Nodup ∧
    (setup_split_merge clustering propose shuffle num_anchors).2.Nodup ∧
    ((setup_split_merge clustering propose shuffle num_anchors).2.take
        (min num_anchors clustering.length)
      = (setup_split_merge clustering propose shuffle num_anchors).1) ∧
    (∀ i,
      i ∈ (setup_split_merge clustering propose shuffle num_anchors).2 ↔
        i < clustering.length ∧ clustering.getD i 0 ∈
          (setup_split_merge clustering propose shuffle
              num_anchors).1.map (fun a => clustering.getD a 0)) := by
  have h := setup_order_assembly clustering
    (propose (min num_anchors clustering.length)) shuffle hnd hlt hshuffle
  refine ⟨hlen, hnd, h.1, ?_, h.2.2⟩
  have ht := h.2.1
  rw [hlen] at ht
  exact ht

/-- Witness for C2 at a concrete clustering and proposal. -/
theorem C2_witness :
    ((fun _ : ℕ => ([0] : List ℕ))
        (min 1 ([0, 0, 1] : List ℤ).length)).Nodup ∧
    ((setup_split_merge [0, 0, 1] (fun _ => [0]) id 1).1.length
        = min 1 ([0, 0, 1] : List ℤ).length ∧
    (setup_split_merge [0, 0, 1] (fun _ => [0]) id 1).1.Nodup ∧
    (setup_split_merge [0, 0, 1] (fun _ => [0]) id 1).2.Nodup ∧
    ((setup_split_merge [0, 0, 1] (fun _ => [0]) id 1).2.take
        (min 1 ([0, 0, 1] : List ℤ).length)
      = (setup_split_merge [0, 0, 1] (fun _ => [0]) id 1).1) ∧
    (∀ i, i ∈ (setup_split_merge [0, 0, 1] (fun _ => [0]) id 1).2 ↔
      i < ([0, 0, 1] : List ℤ).length ∧
        (([0, 0, 1] : List ℤ).getD i 0) ∈
          (setup_split_merge [0, 0, 1] (fun _ => [0]) id 1).1.map
            (fun a => ([0, 0, 1] : List ℤ).getD a 0))) :=
  ⟨by decide,
   C2_setup_split_merge_validity [0, 0, 1] (fun _ => [0]) id 1 rfl
     (by decide) (by decide) (fun l => List.Perm.refl l)⟩
